import Mathlib

/- Verification of the sensitivity sampler of
   shfl/differential_privacy/sensitivity_sampler.py and of the federated
   averaging aggregator of shfl/federated_aggregator/fedavg_aggregator.py.

   Embedding conventions:
   * NumPy double arithmetic is idealised as exact real arithmetic over ℝ.
   * scipy.special.lambertw is an external library function (complex valued,
     with an integer branch argument).  Every definition takes it as an
     explicit parameter of type Lambertw, and the theorems characterise it
     only through the defining equation w * exp w = z of the Lambert W
     function, which every branch of it satisfies.
   * Python exceptions are modelled by Except with the error surface PyErr:
     typeError (arithmetic on None), indexError (out-of-range indexing),
     valueError (np.ones of a negative size), collab e (an error raised by a
     caller-supplied query/norm/oracle collaborator, carried verbatim).
   * The stateful record oracle is modelled by explicit state passing: a draw
     maps a state to the drawn records and the successor state.
   * np.inf only initialises the sample array, and every slot of that array
     is overwritten before it is read; the placeholder is therefore taken as
     an arbitrary real parameter named inf, and the theorems hold for every
     value of it. -/

namespace Shfl

/-- Type of scipy.special.lambertw: complex argument, integer branch index,
complex value. -/
abbrev Lambertw : Type := ℂ → ℤ → ℂ

/-- np.ceil on a double, idealised over ℝ: the integer ceiling, as a real. -/
noncomputable def npCeil (x : ℝ) : ℝ := ((⌈x⌉ : ℤ) : ℝ)

/-- Python int() applied to a float: truncation toward zero. -/
noncomputable def pyInt (x : ℝ) : ℤ := if 0 ≤ x then ⌊x⌋ else ⌈x⌉

/-- Errors a run of the Python code can raise.  `collab` carries an error of
a caller-supplied collaborator verbatim. -/
inductive PyErr (ε : Type) : Type
  | typeError : PyErr ε
  | indexError : PyErr ε
  | valueError : PyErr ε
  | collab (e : ε) : PyErr ε
deriving DecidableEq

/-- The dictionary {m, gamma, k, rho} returned by _sensitivity_sampler_config
(all four values are Python floats). -/
structure SamplerConfig where
  m : ℝ
  gamma : ℝ
  k : ℝ
  rho : ℝ

/-- Embedding of SensitivitySampler._sensitivity_sampler_config (lines 96-123).
With m = None and gamma = None the Python expression -gamma raises a
TypeError.  The lambert calls are exactly the source's:
scipy.special.lambertw(z, 1), branch index 1, followed by np.real. -/
noncomputable def sensitivity_sampler_config {ε : Type} (lambertw : Lambertw)
    (m : Option ℕ) (gamma : Option ℝ) : Except (PyErr ε) SamplerConfig :=
  match m with
  | none =>
    match gamma with
    | none => .error .typeError
    | some g =>
      let lambert_value : ℝ := (lambertw (↑(-g / (2 * Real.exp 0.5))) 1).re
      let rho : ℝ := Real.exp (lambert_value + 0.5)
      let m' : ℝ := npCeil (Real.log (1 / rho) / (2 * (g - rho) ^ 2))
      let gamma_lo : ℝ := rho + Real.sqrt (Real.log (1 / rho) / (2 * m'))
      let k : ℝ := npCeil (m' * (1 - g + gamma_lo))
      .ok ⟨m', g, k, rho⟩
  | some mv =>
    let rho : ℝ := Real.exp ((lambertw (↑(-1 / (4 * (mv : ℝ)))) 1).re / 2)
    let gamma_lo : ℝ := rho + Real.sqrt (Real.log (1 / rho) / (2 * (mv : ℝ)))
    match gamma with
    | none => .ok ⟨(mv : ℝ), gamma_lo, (mv : ℝ), rho⟩
    | some g => .ok ⟨(mv : ℝ), g, npCeil ((mv : ℝ) * (1 - g + gamma_lo)), rho⟩

/-- The record oracle (a ProbabilityDistribution): sample count s = records
together with the successor state; records of type α, state σ, error ε. -/
structure Oracle (α σ ε : Type) where
  sample : ℤ → σ → Except ε (List α × σ)

/-- The query collaborator: get maps a database to a value of type β. -/
structure Query (α β ε : Type) where
  get : List α → Except ε β

/-- The sensitivity-norm collaborator: compute maps two query outputs to a
real number. -/
structure Norm (β ε : Type) where
  compute : β → β → Except ε ℝ

/-- Embedding of SensitivitySampler._sensitivity_norm (lines 75-94): query
both databases, then the norm of the two results. -/
def sensitivity_norm_of {α β ε : Type} (query : Query α β ε) (norm : Norm β ε)
    (x1 x2 : List α) : Except ε ℝ := do
  let value_1 ← query.get x1
  let value_2 ← query.get x2
  norm.compute value_1 value_2

/-- One iteration of the sampling loop of _sensitivity_sampler (lines 66-70):
db1 = oracle.sample(n-1); db2 = db1; db1 = concat(db1, oracle.sample(1));
db2 = concat(db2, oracle.sample(1)); gs[i] = _sensitivity_norm(...). -/
def sampleTrial {α β σ ε : Type} (oracle : Oracle α σ ε) (query : Query α β ε)
    (norm : Norm β ε) (n : ℤ) (s : σ) : Except ε (ℝ × σ) := do
  let (db, s1) ← oracle.sample (n - 1) s
  let (r1, s2) ← oracle.sample 1 s1
  let (r2, s3) ← oracle.sample 1 s2
  let db1 := db ++ r1
  let db2 := db ++ r2
  let g ← sensitivity_norm_of query norm db1 db2
  return (g, s3)

/-- The for-loop of _sensitivity_sampler: for each index i of idx, run one
trial and store its sample at slot i of the array gs.  A collaborator error
aborts the loop at once, carried verbatim inside PyErr.collab. -/
def samplerLoop {α β σ ε : Type} (oracle : Oracle α σ ε) (query : Query α β ε)
    (norm : Norm β ε) (n : ℤ) : List ℕ → σ → List ℝ →
    Except (PyErr ε) (List ℝ × σ)
  | [], s, gs => .ok (gs, s)
  | i :: rest, s, gs =>
    match sampleTrial oracle query norm n s with
    | .error e => .error (.collab e)
    | .ok (g, s') => samplerLoop oracle query norm n rest s' (gs.set i g)

/-- np.sort: ascending merge sort. -/
noncomputable def npSort (l : List ℝ) : List ℝ :=
  l.mergeSort (fun a b => decide (a ≤ b))

/-- NumPy 1-d array indexing with a Python int index: a negative index wraps
around once (gs[-1] is the last element); an index out of [-len, len) raises
IndexError. -/
def npIndex {ε : Type} (l : List ℝ) (i : ℤ) : Except (PyErr ε) ℝ :=
  if 0 ≤ i ∧ i < l.length then .ok (l.getD i.toNat 0)
  else if -(l.length : ℤ) ≤ i ∧ i < 0 then .ok (l.getD (i + l.length).toNat 0)
  else .error .indexError

/-- np.mean of a 1-d array: the sum divided by the length. -/
noncomputable def npMean (l : List ℝ) : ℝ := l.sum / l.length

/-- Embedding of SensitivitySampler._sensitivity_sampler (lines 46-73):
gs = np.ones(m) * np.inf; the trial loop; gs = np.sort(gs); return
(gs[k-1], np.mean(gs)).  np.ones raises ValueError on a negative size.
inf is the array-initialisation placeholder (see the header comment). -/
noncomputable def sensitivity_sampler {α β σ ε : Type} (inf : ℝ)
    (oracle : Oracle α σ ε) (query : Query α β ε) (norm : Norm β ε)
    (n : ℤ) (m : ℤ) (k : ℤ) (s : σ) : Except (PyErr ε) (ℝ × ℝ) :=
  if m < 0 then .error .valueError
  else
    match samplerLoop oracle query norm n (List.range m.toNat) s
        (List.replicate m.toNat inf) with
    | .error e => .error e
    | .ok (gs, _) =>
      let sorted := npSort gs
      match npIndex sorted (k - 1) with
      | .error e => .error e
      | .ok sens => .ok (sens, npMean sorted)

/-- Embedding of SensitivitySampler.sample_sensitivity (lines 17-44):
calibrate, then run the sampler with int(config m) and int(config k). -/
noncomputable def sample_sensitivity {α β σ ε : Type} (lambertw : Lambertw)
    (inf : ℝ) (oracle : Oracle α σ ε) (query : Query α β ε) (norm : Norm β ε)
    (n : ℤ) (m : Option ℕ) (gamma : Option ℝ) (s : σ) :
    Except (PyErr ε) (ℝ × ℝ) :=
  match sensitivity_sampler_config lambertw m gamma with
  | .error e => .error e
  | .ok config =>
    sensitivity_sampler inf oracle query norm n (pyInt config.m)
      (pyInt config.k) s

/-- The list of the m trial samples drawn in order from state s, together
with the final oracle state: the reference reduction of the sampling loop
used to state the claims about _sensitivity_sampler. -/
def trialSamples {α β σ ε : Type} (oracle : Oracle α σ ε)
    (query : Query α β ε) (norm : Norm β ε) (n : ℤ) :
    ℕ → σ → Except ε (List ℝ × σ)
  | 0, s => .ok ([], s)
  | mv + 1, s =>
    match sampleTrial oracle query norm n s with
    | .error e => .error e
    | .ok (g, s') =>
      match trialSamples oracle query norm n mv s' with
      | .error e => .error e
      | .ok (gs, s'') => .ok (g :: gs, s'')

/-- The k-th smallest element of a list (k counted from 1): the entry at
zero-based index k-1 after sorting ascending. -/
noncomputable def kthSmallest (l : List ℝ) (k : ℕ) : ℝ :=
  (npSort l).getD (k - 1) 0

/-- The m field of a calibration result (0 on a calibration error), used to
state claims about the computed configuration. -/
def cfgM (r : Except (PyErr Unit) SamplerConfig) : ℝ :=
  match r with
  | .ok c => c.m
  | .error _ => 0

/-- The k field of a calibration result (0 on a calibration error). -/
def cfgK (r : Except (PyErr Unit) SamplerConfig) : ℝ :=
  match r with
  | .ok c => c.k
  | .error _ => 0

/-- The rho field of a calibration result (0 on a calibration error). -/
def cfgRho (r : Except (PyErr Unit) SamplerConfig) : ℝ :=
  match r with
  | .ok c => c.rho
  | .error _ => 0

/-- Whether a run result is a normal return (an estimate was produced). -/
def runOk {ε : Type} (r : Except (PyErr ε) (ℝ × ℝ)) : Bool :=
  match r with
  | .ok _ => true
  | .error _ => false

/-- The claim C1 characterisation of the spec's rho: rho = exp(W + 0.5) for a
real value W of the Lambert W function at z, of the lower branch, so W ≤ -1
and W * exp W = z.  Writing W = log rho - 1/2 this is the property below. -/
def isLowerBranchRho (rho z : ℝ) : Prop :=
  0 < rho ∧ Real.log rho - 1 / 2 ≤ -1 ∧
    (Real.log rho - 1 / 2) * Real.exp (Real.log rho - 1 / 2) = z

/-- Concrete Lambert stand-in returning 0 at every point, used to obtain
closed statements about the calibration formulas; the theorems that use it
state facts that hold for every Lambertw value. -/
def lambertwZero : Lambertw := fun _ _ => 0

/-- Concrete Lambert stand-in returning -2 at every point. -/
def lambertwNeg2 : Lambertw := fun _ _ => (-2 : ℂ)

/-- The point w0 = (9 pi / 4) * (-1 + i): a non-real complex number with
w0 * exp w0 real and inside (-1/e, 0), used to witness the Lambert branch
hypotheses of C1 at a point where everything is in closed form. -/
noncomputable def w0 : ℂ := ⟨-(9 * Real.pi / 4), 9 * Real.pi / 4⟩

/-- Concrete Lambert stand-in returning w0 at every point. -/
noncomputable def lambertwW0 : Lambertw := fun _ _ => w0

/-- The real number w0 * exp w0 = -(9 pi sqrt 2 / 4) e^(-9 pi / 4), a point
of (-1/e, 0) at which the Lambert data of C1 is in closed form. -/
noncomputable def z0 : ℝ :=
  -(9 * Real.pi * Real.sqrt 2 / 4) * Real.exp (-(9 * Real.pi / 4))

/-- The confidence level gamma0 in (0,1) whose calibration argument
-gamma0 / (2 e^0.5) equals z0. -/
noncomputable def gamma0 : ℝ :=
  (9 * Real.pi * Real.sqrt 2 / 2) * Real.exp (1 / 2 - 9 * Real.pi / 4)

/-- A deterministic test oracle over real records with a counter state:
sample c s returns c copies of the record s and increments the counter. -/
def countOracle : Oracle ℝ ℕ ℕ :=
  ⟨fun c s => .ok (List.replicate c.toNat (s : ℝ), s + 1)⟩

/-- A deterministic test query: the sum of the database records. -/
def sumQueryN : Query ℝ ℝ ℕ := ⟨fun db => .ok db.sum⟩

/-- A deterministic test norm: the absolute difference. -/
noncomputable def absNormN : Norm ℝ ℕ := ⟨fun a b => .ok |a - b|⟩

/-- A norm collaborator that always fails with the error 7. -/
def failNorm7 : Norm ℝ ℕ := ⟨fun _ _ => .error 7⟩

/-- np.mean(stack, axis=0) for a stack of equally long rows: the elementwise
mean over the rows; the width is read off the first row, as np.array reads
the stacked shape. -/
noncomputable def npMeanAxis0 (rows : List (List ℝ)) : List ℝ :=
  (List.range (rows.headD []).length).map
    (fun p => (rows.map (fun r => r.getD p 0)).sum / rows.length)

/-- Embedding of FedAvgAggregator.aggregate_weights (fedavg_aggregator.py,
lines 13-31): shape[1] of np.array(clients_params) is the common number of
layers, read off the first client; entry layer of the result is
np.mean(clients_params_array[:, layer], axis=0).  A layer tensor is modelled
by the flat list of its entries, which elementwise operations preserve. -/
noncomputable def aggregate_weights (clients_params : List (List (List ℝ))) :
    List (List ℝ) :=
  let shape1 := (clients_params.headD []).length
  (List.range shape1).map
    (fun layer => npMeanAxis0 (clients_params.map (fun cp => cp.getD layer [])))

/-- Abbreviation for the rho of the m-supplied calibration branch; the lemma
config_m_only / config_m_gamma certifies it against the source definition. -/
noncomputable def mRho (lambertw : Lambertw) (mv : ℕ) : ℝ :=
  Real.exp ((lambertw (↑(-1 / (4 * (mv : ℝ)))) 1).re / 2)

/-- Abbreviation for the gamma_lo of the m-supplied calibration branch. -/
noncomputable def mGammaLo (lambertw : Lambertw) (mv : ℕ) : ℝ :=
  mRho lambertw mv +
    Real.sqrt (Real.log (1 / mRho lambertw mv) / (2 * (mv : ℝ)))

/-- Abbreviation for the rho of the gamma-only calibration branch. -/
noncomputable def gRho (lambertw : Lambertw) (g : ℝ) : ℝ :=
  Real.exp ((lambertw (↑(-g / (2 * Real.exp 0.5))) 1).re + 0.5)

/-- Abbreviation for the m of the gamma-only calibration branch. -/
noncomputable def gM (lambertw : Lambertw) (g : ℝ) : ℝ :=
  npCeil (Real.log (1 / gRho lambertw g) / (2 * (g - gRho lambertw g) ^ 2))

/-- Abbreviation for the gamma_lo of the gamma-only calibration branch. -/
noncomputable def gGammaLo (lambertw : Lambertw) (g : ℝ) : ℝ :=
  gRho lambertw g +
    Real.sqrt (Real.log (1 / gRho lambertw g) / (2 * gM lambertw g))

/-- Abbreviation for the k of the gamma-only calibration branch. -/
noncomputable def gK (lambertw : Lambertw) (g : ℝ) : ℝ :=
  npCeil (gM lambertw g * (1 - g + gGammaLo lambertw g))

/-- Unfolding lemma: the gamma-only branch of the calibrator, written with
the abbreviations; it holds by definitional unfolding of the source code. -/
theorem config_gamma_only {ε : Type} (lambertw : Lambertw) (g : ℝ) :
    (sensitivity_sampler_config lambertw none (some g) :
      Except (PyErr ε) SamplerConfig) =
      .ok ⟨gM lambertw g, g, gK lambertw g, gRho lambertw g⟩ := rfl

/-- Unfolding lemma: the m-only branch of the calibrator. -/
theorem config_m_only {ε : Type} (lambertw : Lambertw) (mv : ℕ) :
    (sensitivity_sampler_config lambertw (some mv) none :
      Except (PyErr ε) SamplerConfig) =
      .ok ⟨(mv : ℝ), mGammaLo lambertw mv, (mv : ℝ), mRho lambertw mv⟩ := rfl

/-- Unfolding lemma: the both-supplied branch of the calibrator. -/
theorem config_m_gamma {ε : Type} (lambertw : Lambertw) (mv : ℕ) (g : ℝ) :
    (sensitivity_sampler_config lambertw (some mv) (some g) :
      Except (PyErr ε) SamplerConfig) =
      .ok ⟨(mv : ℝ), g,
        npCeil ((mv : ℝ) * (1 - g + mGammaLo lambertw mv)), mRho lambertw mv⟩ :=
  rfl

/-- Python int() of an integral float is that integer. -/
theorem pyInt_intCast (z : ℤ) : pyInt (z : ℝ) = z := by
  unfold pyInt
  split
  · exact Int.floor_intCast z
  · exact Int.ceil_intCast z

/-- Python int() after np.ceil is the integer ceiling. -/
theorem pyInt_npCeil (x : ℝ) : pyInt (npCeil x) = ⌈x⌉ := by
  unfold npCeil
  exact pyInt_intCast ⌈x⌉

/-- np.sort permutes the array. -/
theorem npSort_perm (l : List ℝ) : (npSort l).Perm l :=
  List.mergeSort_perm l _

/-- np.sort preserves the length. -/
theorem npSort_length (l : List ℝ) : (npSort l).length = l.length :=
  List.length_mergeSort l

/-- np.sort preserves the sum. -/
theorem npSort_sum (l : List ℝ) : (npSort l).sum = l.sum :=
  (npSort_perm l).sum_eq

/-- Claim C6: calling the calibrator, and hence sample_sensitivity, with
both m and gamma absent fails: the Python expression -gamma raises a
TypeError on None, so no estimate is produced. -/
theorem both_none_fails {α β σ ε : Type} (lambertw : Lambertw) (inf : ℝ)
    (oracle : Oracle α σ ε) (query : Query α β ε) (norm : Norm β ε)
    (n : ℤ) (s : σ) :
    (sensitivity_sampler_config lambertw none none :
        Except (PyErr ε) SamplerConfig) = .error .typeError ∧
      sample_sensitivity lambertw inf oracle query norm n none none s =
        .error .typeError := by
  constructor
  · rfl
  · rfl

/-- A completed run of m trials yields exactly m samples. -/
theorem trialSamples_length {α β σ ε : Type} (oracle : Oracle α σ ε)
    (query : Query α β ε) (norm : Norm β ε) (n : ℤ) :
    ∀ (m : ℕ) (s : σ) (gs : List ℝ) (s' : σ),
      trialSamples oracle query norm n m s = .ok (gs, s') → gs.length = m := by
  intro m
  induction m with
  | zero =>
    intro s gs s' h
    simp only [trialSamples] at h
    cases h
    rfl
  | succ mv ih =>
    intro s gs s' h
    simp only [trialSamples] at h
    cases htr : sampleTrial oracle query norm n s with
    | error e =>
      rw [htr] at h
      simp at h
    | ok p =>
      obtain ⟨g, s1⟩ := p
      rw [htr] at h
      simp only [] at h
      cases hrest : trialSamples oracle query norm n mv s1 with
      | error e =>
        rw [hrest] at h
        simp at h
      | ok q =>
        obtain ⟨l, s2⟩ := q
        rw [hrest] at h
        simp only [] at h
        cases h
        simp [ih s1 l s' hrest]

/-- Writing the i-th trial sample into slot i of the array, for i running
over range' i c, computes the list of trial samples: the loop of the source
equals the reference reduction trialSamples, and any trial error aborts the
loop with that error held verbatim in PyErr.collab. -/
theorem samplerLoop_spec {α β σ ε : Type} (oracle : Oracle α σ ε)
    (query : Query α β ε) (norm : Norm β ε) (n : ℤ) :
    ∀ (c i : ℕ) (s : σ) (A : List ℝ), i + c ≤ A.length →
      samplerLoop oracle query norm n (List.range' i c) s A =
        (match trialSamples oracle query norm n c s with
          | .error e => .error (.collab e)
          | .ok (l, s') => .ok (A.take i ++ l ++ A.drop (i + c), s')) := by
  intro c
  induction c with
  | zero =>
    intro i s A _
    simp [trialSamples, samplerLoop, List.range', List.take_append_drop]
  | succ c ih =>
    intro i s A hlen
    rw [List.range'_succ]
    simp only [samplerLoop, trialSamples]
    cases htr : sampleTrial oracle query norm n s with
    | error e => rfl
    | ok p =>
      obtain ⟨g, s1⟩ := p
      have hi : i < A.length := by omega
      have hlen' : (i + 1) + c ≤ (A.set i g).length := by
        rw [List.length_set]; omega
      simp only []
      rw [ih (i + 1) s1 (A.set i g) hlen']
      have htake : (A.set i g).take (i + 1) = A.take i ++ [g] := by
        rw [List.set_eq_take_append_cons_drop]
        simp [hi]
        rw [List.take_append_eq_append_take]
        simp [List.length_take, Nat.le_of_lt hi]
      have hdrop : (A.set i g).drop (i + 1 + c) = A.drop (i + 1 + c) :=
        List.drop_set_of_lt g A (by omega)
      cases hrest : trialSamples oracle query norm n c s1 with
      | error e => rfl
      | ok q =>
        obtain ⟨l, s2⟩ := q
        simp only [htake, hdrop]
        have harr : A.take i ++ [g] ++ l ++ A.drop (i + 1 + c) =
            A.take i ++ (g :: l) ++ A.drop (i + (c + 1)) := by
          simp only [List.append_assoc, List.singleton_append]
          have : i + 1 + c = i + (c + 1) := by omega
          rw [this]
        rw [harr]

/-- Claim C2: for every completed run of m trials, _sensitivity_sampler
returns the pair (sensitivity, mean) in which sensitivity is the k-th
smallest of the m trial samples (the entry at zero-based index k-1 of the
ascending sort) and mean is the exact arithmetic mean of all m samples. -/
theorem sampler_returns_kth_and_mean {α β σ ε : Type} (inf : ℝ)
    (oracle : Oracle α σ ε) (query : Query α β ε) (norm : Norm β ε)
    (n : ℤ) (m : ℕ) (k : ℤ) (s : σ) (gs : List ℝ) (s' : σ)
    (h : trialSamples oracle query norm n m s = .ok (gs, s'))
    (hk1 : 1 ≤ k) (hkm : k ≤ (m : ℤ)) :
    sensitivity_sampler inf oracle query norm n (m : ℤ) k s =
      .ok (kthSmallest gs k.toNat, gs.sum / (m : ℝ)) := by
  have hgs : gs.length = m := trialSamples_length oracle query norm n m s gs s' h
  have hnot : ¬ ((m : ℤ) < 0) := by omega
  unfold sensitivity_sampler
  rw [if_neg hnot, Int.toNat_natCast]
  have hlen : (0 : ℕ) + m ≤ (List.replicate m inf).length := by simp
  have hloop := samplerLoop_spec oracle query norm n m 0 s
    (List.replicate m inf) hlen
  rw [List.range_eq_range', hloop, h]
  have hdrop : (List.replicate m inf).drop (0 + m) = [] := by simp
  simp only [List.take_zero, List.nil_append, hdrop, List.append_nil]
  have hsortlen : (npSort gs).length = m := by rw [npSort_length, hgs]
  have hidx : (npIndex (npSort gs) (k - 1) : Except (PyErr ε) ℝ) =
      .ok ((npSort gs).getD (k - 1).toNat 0) := by
    unfold npIndex
    rw [if_pos]
    constructor
    · omega
    · rw [hsortlen]; omega
  rw [hidx]
  have htn : (k - 1).toNat = k.toNat - 1 := by omega
  have hmean : npMean (npSort gs) = gs.sum / (m : ℝ) := by
    unfold npMean
    rw [npSort_sum, npSort_length, hgs]
  rw [hmean]
  unfold kthSmallest
  rw [htn]

/-- Witness for C2 at a concrete input: two trials of the deterministic
collaborators produce the samples [1, 1]; with k = 1 the sampler returns the
1st smallest sample and the exact mean. -/
theorem sampler_returns_kth_and_mean_witness :
    trialSamples countOracle sumQueryN absNormN 2 2 0 = .ok ([1, 1], 6) ∧
      (1 : ℤ) ≤ 1 ∧ (1 : ℤ) ≤ ((2 : ℕ) : ℤ) ∧
      sensitivity_sampler 0 countOracle sumQueryN absNormN 2 ((2 : ℕ) : ℤ) 1 0 =
        .ok (kthSmallest [1, 1] (1 : ℤ).toNat, ([1, 1] : List ℝ).sum / ((2 : ℕ) : ℝ)) := by
  have h : trialSamples countOracle sumQueryN absNormN 2 2 0 = .ok ([1, 1], 6) := by
    simp [trialSamples, sampleTrial, sensitivity_norm_of, countOracle,
      sumQueryN, absNormN, Bind.bind, Except.bind, Pure.pure, Except.pure]
    norm_num
  exact ⟨h, le_refl 1, by norm_num,
    sampler_returns_kth_and_mean 0 countOracle sumQueryN absNormN 2 2 1 0
      [1, 1] 6 h (by norm_num) (by norm_num)⟩

/-- Claim C3: a trial of the sampling loop draws n-1 shared records, extends
them by one fresh record into D1 and by a second, independently drawn record
into D2, and the trial's sample is norm.compute(query.get(D1),
query.get(D2)).  D1 and D2 both have n records and agree on their first n-1
records, each ending in a single drawn record. -/
theorem trial_neighbor_construction {α β σ ε : Type} (oracle : Oracle α σ ε)
    (query : Query α β ε) (norm : Norm β ε) (n : ℤ) (s s1 s2 s3 : σ)
    (db r1 r2 : List α) (v1 v2 : β) (g : ℝ)
    (hlen : ∀ (c : ℤ) (t : σ) (r : List α) (t' : σ),
      oracle.sample c t = .ok (r, t') → r.length = c.toNat)
    (hn : 1 ≤ n)
    (h1 : oracle.sample (n - 1) s = .ok (db, s1))
    (h2 : oracle.sample 1 s1 = .ok (r1, s2))
    (h3 : oracle.sample 1 s2 = .ok (r2, s3))
    (hq1 : query.get (db ++ r1) = .ok v1)
    (hq2 : query.get (db ++ r2) = .ok v2)
    (hno : norm.compute v1 v2 = .ok g) :
    sampleTrial oracle query norm n s = .ok (g, s3) ∧
      (db ++ r1).length = n.toNat ∧ (db ++ r2).length = n.toNat ∧
      (db ++ r1).take (n - 1).toNat = (db ++ r2).take (n - 1).toNat ∧
      (∃ a, r1 = [a]) ∧ (∃ b, r2 = [b]) := by
  have hd : db.length = (n - 1).toNat := hlen (n - 1) s db s1 h1
  have hr1 : r1.length = 1 := by
    have := hlen 1 s1 r1 s2 h2
    simpa using this
  have hr2 : r2.length = 1 := by
    have := hlen 1 s2 r2 s3 h3
    simpa using this
  refine ⟨?_, ?_, ?_, ?_, List.length_eq_one.mp hr1, List.length_eq_one.mp hr2⟩
  · simp only [sampleTrial, sensitivity_norm_of, h1, h2, h3, hq1, hq2, hno,
      Bind.bind, Except.bind, Pure.pure, Except.pure]
  · rw [List.length_append, hd, hr1]
    omega
  · rw [List.length_append, hd, hr2]
    omega
  · rw [← hd, List.take_left, List.take_left]

/-- Witness for C3 at a concrete input: n = 3, the counting oracle, the
summing query and the absolute-difference norm. -/
theorem trial_neighbor_construction_witness :
    (∀ (c : ℤ) (t : ℕ) (r : List ℝ) (t' : ℕ),
      countOracle.sample c t = .ok (r, t') → r.length = c.toNat) ∧
      (sampleTrial countOracle sumQueryN absNormN 3 0 = .ok (1, 3) ∧
        (([0, 0] : List ℝ) ++ [1]).length = (3 : ℤ).toNat ∧
        (([0, 0] : List ℝ) ++ [2]).length = (3 : ℤ).toNat ∧
        (([0, 0] : List ℝ) ++ [1]).take ((3 : ℤ) - 1).toNat =
          (([0, 0] : List ℝ) ++ [2]).take ((3 : ℤ) - 1).toNat ∧
        (∃ a, ([1] : List ℝ) = [a]) ∧ (∃ b, ([2] : List ℝ) = [b])) := by
  have hlen : ∀ (c : ℤ) (t : ℕ) (r : List ℝ) (t' : ℕ),
      countOracle.sample c t = .ok (r, t') → r.length = c.toNat := by
    intro c t r t' h
    simp [countOracle] at h
    rw [← h.1]
    simp
  refine ⟨hlen, ?_⟩
  have h1 : countOracle.sample ((3 : ℤ) - 1) 0 = .ok ([0, 0], 1) := by
    simp [countOracle, List.replicate]
  have h2 : countOracle.sample 1 1 = .ok ([1], 2) := by
    simp [countOracle, List.replicate]
  have h3 : countOracle.sample 1 2 = .ok ([2], 3) := by
    simp [countOracle, List.replicate]
  have hq1 : sumQueryN.get (([0, 0] : List ℝ) ++ [1]) = .ok 1 := by
    simp [sumQueryN]
  have hq2 : sumQueryN.get (([0, 0] : List ℝ) ++ [2]) = .ok 2 := by
    simp [sumQueryN]
  have hno : absNormN.compute 1 2 = .ok 1 := by
    simp [absNormN]
    norm_num
  exact trial_neighbor_construction countOracle sumQueryN absNormN 3 0 1 2 3
    [0, 0] [1] [2] 1 2 1 hlen (by norm_num) h1 h2 h3 hq1 hq2 hno

/-- An error in trial i aborts the whole reduction: if the first i trials
succeed and the next trial fails with e, the m-trial run fails with exactly
the error e. -/
theorem trialSamples_abort {α β σ ε : Type} (oracle : Oracle α σ ε)
    (query : Query α β ε) (norm : Norm β ε) (n : ℤ) (e : ε) :
    ∀ (i m : ℕ) (s s' : σ) (gs : List ℝ), i < m →
      trialSamples oracle query norm n i s = .ok (gs, s') →
      sampleTrial oracle query norm n s' = .error e →
      trialSamples oracle query norm n m s = .error e := by
  intro i
  induction i with
  | zero =>
    intro m s s' gs him hok hfail
    obtain ⟨m', rfl⟩ : ∃ m', m = m' + 1 := ⟨m - 1, by omega⟩
    simp only [trialSamples] at hok ⊢
    cases hok
    rw [hfail]
  | succ i ih =>
    intro m s s' gs him hok hfail
    obtain ⟨m', rfl⟩ : ∃ m', m = m' + 1 := ⟨m - 1, by omega⟩
    simp only [trialSamples] at hok ⊢
    cases htr : sampleTrial oracle query norm n s with
    | error e' =>
      rw [htr] at hok
      simp at hok
    | ok p =>
      obtain ⟨g, t⟩ := p
      rw [htr] at hok
      simp only [] at hok
      cases hrest : trialSamples oracle query norm n i t with
      | error e' =>
        rw [hrest] at hok
        simp at hok
      | ok q =>
        obtain ⟨l, t'⟩ := q
        rw [hrest] at hok
        simp only [] at hok
        cases hok
        simp only []
        rw [ih m' t s' l (by omega) hrest hfail]

/-- Claim C8 (amended): the first collaborator failure aborts the entire
estimation at once: if the trials before index i succeed and trial i fails
with the error e, _sensitivity_sampler returns exactly that error (held
verbatim in PyErr.collab, with no trial-index context), for every k and
every array placeholder: no retry, no partial estimate. -/
theorem collaborator_error_verbatim {α β σ ε : Type} (inf : ℝ)
    (oracle : Oracle α σ ε) (query : Query α β ε) (norm : Norm β ε)
    (n : ℤ) (m : ℕ) (k : ℤ) (s : σ) (i : ℕ) (s' : σ) (gs : List ℝ) (e : ε)
    (him : i < m)
    (hok : trialSamples oracle query norm n i s = .ok (gs, s'))
    (hfail : sampleTrial oracle query norm n s' = .error e) :
    sensitivity_sampler inf oracle query norm n (m : ℤ) k s =
      .error (.collab e) := by
  have habort : trialSamples oracle query norm n m s = .error e :=
    trialSamples_abort oracle query norm n e i m s s' gs him hok hfail
  have hnot : ¬ ((m : ℤ) < 0) := by omega
  unfold sensitivity_sampler
  rw [if_neg hnot, Int.toNat_natCast]
  have hlen : (0 : ℕ) + m ≤ (List.replicate m inf).length := by simp
  have hloop := samplerLoop_spec oracle query norm n m 0 s
    (List.replicate m inf) hlen
  rw [List.range_eq_range', hloop, habort]

/-- Counterexample for C8: with a norm that fails with the error 7 at the
first trial, sample_sensitivity fails with exactly PyErr.collab 7: the
collaborator's error value propagates verbatim, carrying no trial-index
context, contrary to the claim's wrapped-with-trial-index wording. -/
theorem error_not_wrapped_cex :
    sample_sensitivity lambertwZero 0 countOracle sumQueryN failNorm7 2
      (some 3) none 0 = .error (.collab 7) := by
  have hfail : sampleTrial countOracle sumQueryN failNorm7 2 0 = .error 7 := by
    simp [sampleTrial, sensitivity_norm_of, countOracle, sumQueryN, failNorm7,
      Bind.bind, Except.bind, Pure.pure, Except.pure]
  unfold sample_sensitivity
  rw [config_m_only]
  simp only []
  have hm : pyInt (((3 : ℕ) : ℝ)) = (3 : ℤ) := by
    unfold pyInt
    rw [if_pos (by norm_num)]
    norm_num
  rw [hm]
  unfold sensitivity_sampler
  rw [if_neg (by norm_num)]
  have hr : (3 : ℤ).toNat = 3 := rfl
  rw [hr, show List.range 3 = [0, 1, 2] from rfl]
  simp only [samplerLoop, hfail]

/-- Witness for C8's theorem at a concrete input: the failure of the
(always-failing) norm in the very first trial aborts the three-trial run
with exactly the error 7. -/
theorem collaborator_error_verbatim_witness :
    (0 : ℕ) < 3 ∧
      trialSamples countOracle sumQueryN failNorm7 2 0 0 = .ok ([], 0) ∧
      sampleTrial countOracle sumQueryN failNorm7 2 0 = .error 7 ∧
      sensitivity_sampler 0 countOracle sumQueryN failNorm7 2 ((3 : ℕ) : ℤ) 3 0 =
        .error (.collab 7) := by
  have hfail : sampleTrial countOracle sumQueryN failNorm7 2 0 = .error 7 := by
    simp [sampleTrial, sensitivity_norm_of, countOracle, sumQueryN, failNorm7,
      Bind.bind, Except.bind, Pure.pure, Except.pure]
  have hok : trialSamples countOracle sumQueryN failNorm7 2 0 0 = .ok ([], 0) :=
    rfl
  exact ⟨by norm_num, hok, hfail,
    collaborator_error_verbatim 0 countOracle sumQueryN failNorm7 2 3 3 0 0 0
      [] 7 (by norm_num) hok hfail⟩

/-- The rho of the gamma-only branch is positive (it is an exponential). -/
theorem gRho_pos (lambertw : Lambertw) (g : ℝ) : 0 < gRho lambertw g :=
  Real.exp_pos _

/-- The rho of the m-supplied branch is positive. -/
theorem mRho_pos (lambertw : Lambertw) (mv : ℕ) : 0 < mRho lambertw mv :=
  Real.exp_pos _

/-- The gamma_lo of the gamma-only branch is positive. -/
theorem gGammaLo_pos (lambertw : Lambertw) (g : ℝ) : 0 < gGammaLo lambertw g :=
  add_pos_of_pos_of_nonneg (gRho_pos lambertw g) (Real.sqrt_nonneg _)

/-- The gamma_lo of the m-supplied branch is positive. -/
theorem mGammaLo_pos (lambertw : Lambertw) (mv : ℕ) : 0 < mGammaLo lambertw mv :=
  add_pos_of_pos_of_nonneg (mRho_pos lambertw mv) (Real.sqrt_nonneg _)

/-- With the zero Lambert stub the m-branch rho evaluates to 1. -/
theorem mRho_zero (mv : ℕ) : mRho lambertwZero mv = 1 := by
  unfold mRho lambertwZero
  simp

/-- With the zero Lambert stub the m-branch gamma_lo evaluates to 1. -/
theorem mGammaLo_zero (mv : ℕ) : mGammaLo lambertwZero mv = 1 := by
  unfold mGammaLo
  rw [mRho_zero]
  simp

/-- Whenever the order-statistic index k is beyond the array (k > m), or the
array size is degenerate (m ≤ 0), the sampler run ends in an error (a
ValueError from np.ones for m < 0, an IndexError at the order-statistic
lookup otherwise) and never in an estimate. -/
theorem sampler_fails_of_k_out {α β σ ε : Type} (inf : ℝ)
    (oracle : Oracle α σ ε) (query : Query α β ε) (norm : Norm β ε)
    (n : ℤ) (m k : ℤ) (s : σ) (h : m < k ∨ m ≤ 0) :
    runOk (sensitivity_sampler inf oracle query norm n m k s) = false := by
  unfold sensitivity_sampler
  by_cases hneg : m < 0
  · rw [if_pos hneg]
    rfl
  · rw [if_neg hneg]
    have hm0 : 0 ≤ m := by omega
    have hcase : m < k ∨ m = 0 := by omega
    have hlen0 : (0 : ℕ) + m.toNat ≤ (List.replicate m.toNat inf).length := by
      simp
    have hloop := samplerLoop_spec oracle query norm n m.toNat 0 s
      (List.replicate m.toNat inf) hlen0
    rw [List.range_eq_range', hloop]
    cases htr : trialSamples oracle query norm n m.toNat s with
    | error e => rfl
    | ok p =>
      obtain ⟨gs, s'⟩ := p
      simp only []
      have hgs : gs.length = m.toNat :=
        trialSamples_length oracle query norm n m.toNat s gs s' htr
      have hdrop : (List.replicate m.toNat inf).drop (0 + m.toNat) = [] := by
        simp
      simp only [List.take_zero, List.nil_append, hdrop, List.append_nil]
      have hsortlen : ((npSort gs).length : ℤ) = m := by
        rw [npSort_length, hgs]
        exact Int.toNat_of_nonneg hm0
      have hidx : (npIndex (npSort gs) (k - 1) : Except (PyErr ε) ℝ) =
          .error .indexError := by
        unfold npIndex
        rw [if_neg, if_neg]
        · rw [hsortlen]
          omega
        · rw [hsortlen]
          omega
      rw [hidx]
      rfl

/-- Claim C5: for inputs of the documented domain (m a positive integer when
supplied, gamma in (0,1) when supplied), whenever the calibration computes a
k outside [1, m], the sample_sensitivity call fails before returning a
result: it never clamps k into range and never returns an estimate computed
from an out-of-range k. -/
theorem out_of_range_k_fails {α β σ ε : Type} (lambertw : Lambertw)
    (inf : ℝ) (oracle : Oracle α σ ε) (query : Query α β ε) (norm : Norm β ε)
    (n : ℤ) (mo : Option ℕ) (go : Option ℝ) (s : σ) (cfg : SamplerConfig)
    (hm : ∀ mv, mo = some mv → 1 ≤ mv)
    (hg : ∀ g, go = some g → 0 < g ∧ g < 1)
    (hcfg : (sensitivity_sampler_config lambertw mo go :
      Except (PyErr ε) SamplerConfig) = .ok cfg)
    (hout : ¬ (1 ≤ pyInt cfg.k ∧ pyInt cfg.k ≤ pyInt cfg.m)) :
    runOk (sample_sensitivity lambertw inf oracle query norm n mo go s) =
      false := by
  unfold sample_sensitivity
  rw [hcfg]
  simp only []
  cases mo with
  | none =>
    cases go with
    | none => simp [sensitivity_sampler_config] at hcfg
    | some g =>
      rw [config_gamma_only] at hcfg
      obtain ⟨hg0, hg1⟩ := hg g rfl
      cases hcfg
      simp only [] at hout ⊢
      unfold gK at hout ⊢
      unfold gM at hout ⊢
      rw [pyInt_npCeil, pyInt_npCeil] at hout
      apply sampler_fails_of_k_out
      rw [pyInt_npCeil, pyInt_npCeil]
      set x := Real.log (1 / gRho lambertw g) /
        (2 * (g - gRho lambertw g) ^ 2) with hx
      rcases lt_trichotomy ⌈x⌉ 0 with hM | hM | hM
      · right
        omega
      · right
        omega
      · left
        have hge1 : (1 : ℝ) ≤ npCeil x := by
          unfold npCeil
          exact_mod_cast hM
        have hfac : 0 < 1 - g + gGammaLo lambertw g := by
          have := gGammaLo_pos lambertw g
          linarith
        have hkpos : 0 < npCeil x * (1 - g + gGammaLo lambertw g) := by
          have h0 : (0 : ℝ) < npCeil x := by linarith
          exact mul_pos h0 hfac
        have hk1 : 1 ≤ ⌈npCeil x * (1 - g + gGammaLo lambertw g)⌉ :=
          Int.ceil_pos.mpr hkpos
        push_neg at hout
        have := hout hk1
        omega
  | some mv =>
    have hmv : 1 ≤ mv := hm mv rfl
    cases go with
    | none =>
      rw [config_m_only] at hcfg
      cases hcfg
      exfalso
      apply hout
      have hcast : ((mv : ℕ) : ℝ) = (((mv : ℕ) : ℤ) : ℝ) := by push_cast; ring
      simp only [hcast, pyInt_intCast]
      omega
    | some g =>
      rw [config_m_gamma] at hcfg
      obtain ⟨hg0, hg1⟩ := hg g rfl
      cases hcfg
      apply sampler_fails_of_k_out
      left
      have hcast : ((mv : ℕ) : ℝ) = (((mv : ℕ) : ℤ) : ℝ) := by push_cast; ring
      simp only [hcast, pyInt_intCast, pyInt_npCeil] at hout ⊢
      have hfac : 0 < 1 - g + mGammaLo lambertw mv := by
        have := mGammaLo_pos lambertw mv
        linarith
      have hmpos : (0 : ℝ) < ((mv : ℤ) : ℝ) := by
        push_cast
        exact_mod_cast Nat.lt_of_lt_of_le Nat.zero_lt_one hmv
      have hkpos : 0 < (((mv : ℕ) : ℤ) : ℝ) * (1 - g + mGammaLo lambertw mv) :=
        mul_pos hmpos hfac
      have hk1 : 1 ≤ ⌈(((mv : ℕ) : ℤ) : ℝ) * (1 - g + mGammaLo lambertw mv)⌉ :=
        Int.ceil_pos.mpr hkpos
      push_neg at hout
      have := hout hk1
      omega

/-- Claim C9: holding the supplied m fixed, for supplied confidence levels
gamma1 < gamma2 in (0,1), the computed k is antitone in gamma and stays in
the admissible range: k(gamma2) is at least 1, and if k(gamma1) was within
[1, m] then k(gamma2) remains within [1, m]. -/
theorem k_monotone_in_gamma (lambertw : Lambertw) (mv : ℕ) (g1 g2 : ℝ)
    (hmv : 1 ≤ mv) (h0 : 0 < g1) (h12 : g1 < g2) (h1 : g2 < 1) :
    cfgK (sensitivity_sampler_config lambertw (some mv) (some g2)) ≤
        cfgK (sensitivity_sampler_config lambertw (some mv) (some g1)) ∧
      1 ≤ cfgK (sensitivity_sampler_config lambertw (some mv) (some g2)) ∧
      (cfgK (sensitivity_sampler_config lambertw (some mv) (some g1)) ≤ (mv : ℝ) →
        cfgK (sensitivity_sampler_config lambertw (some mv) (some g2)) ≤ (mv : ℝ)) := by
  rw [config_m_gamma, config_m_gamma]
  unfold cfgK
  simp only []
  have hL := mGammaLo_pos lambertw mv
  have hmv0 : (0 : ℝ) < (mv : ℝ) := by exact_mod_cast hmv
  have hmono : cfgK (Except.ok ⟨(mv : ℝ), g2,
      npCeil ((mv : ℝ) * (1 - g2 + mGammaLo lambertw mv)), mRho lambertw mv⟩) ≤
      cfgK (Except.ok ⟨(mv : ℝ), g1,
      npCeil ((mv : ℝ) * (1 - g1 + mGammaLo lambertw mv)), mRho lambertw mv⟩) := by
    unfold cfgK
    simp only []
    unfold npCeil
    have hle : (mv : ℝ) * (1 - g2 + mGammaLo lambertw mv) ≤
        (mv : ℝ) * (1 - g1 + mGammaLo lambertw mv) := by
      apply mul_le_mul_of_nonneg_left _ hmv0.le
      linarith
    exact_mod_cast Int.ceil_le_ceil hle
  refine ⟨hmono, ?_, ?_⟩
  · unfold npCeil
    have hpos : 0 < (mv : ℝ) * (1 - g2 + mGammaLo lambertw mv) := by
      apply mul_pos hmv0
      linarith
    exact_mod_cast Int.ceil_pos.mpr hpos
  · intro hin
    exact le_trans hmono hin

/-- Witness for C9 at a concrete input: the zero Lambert stub, m = 10,
gamma1 = 1/4, gamma2 = 1/2. -/
theorem k_monotone_in_gamma_witness :
    (1 ≤ 10) ∧ ((0 : ℝ) < 1 / 4) ∧ ((1 / 4 : ℝ) < 1 / 2) ∧ ((1 / 2 : ℝ) < 1) ∧
      (cfgK (sensitivity_sampler_config lambertwZero (some 10) (some (1 / 2))) ≤
          cfgK (sensitivity_sampler_config lambertwZero (some 10) (some (1 / 4))) ∧
        1 ≤ cfgK (sensitivity_sampler_config lambertwZero (some 10) (some (1 / 2))) ∧
        (cfgK (sensitivity_sampler_config lambertwZero (some 10) (some (1 / 4))) ≤
            ((10 : ℕ) : ℝ) →
          cfgK (sensitivity_sampler_config lambertwZero (some 10) (some (1 / 2))) ≤
            ((10 : ℕ) : ℝ))) :=
  ⟨by norm_num, by norm_num, by norm_num, by norm_num,
    k_monotone_in_gamma lambertwZero 10 (1 / 4) (1 / 2) (by norm_num)
      (by norm_num) (by norm_num) (by norm_num)⟩

/-- Witness for C5 at a concrete input: the zero Lambert stub with m = 10
and gamma = 1/10 calibrates to k = 19, outside [1, 10], and the run fails
(an IndexError at the order-statistic lookup), returning no estimate. -/
theorem out_of_range_k_fails_witness :
    ((sensitivity_sampler_config lambertwZero (some 10) (some (1 / 10)) :
        Except (PyErr ℕ) SamplerConfig) = .ok ⟨10, 1 / 10, 19, 1⟩) ∧
      ¬ (1 ≤ pyInt ((19 : ℝ)) ∧ pyInt ((19 : ℝ)) ≤ pyInt ((10 : ℝ))) ∧
      runOk (sample_sensitivity lambertwZero 0 countOracle sumQueryN absNormN
        2 (some 10) (some (1 / 10)) 0) = false := by
  have hcfg : (sensitivity_sampler_config lambertwZero (some 10) (some (1 / 10)) :
      Except (PyErr ℕ) SamplerConfig) = .ok ⟨10, 1 / 10, 19, 1⟩ := by
    rw [config_m_gamma, mRho_zero, mGammaLo_zero]
    norm_num [npCeil]
  have hout : ¬ (1 ≤ pyInt ((19 : ℝ)) ∧ pyInt ((19 : ℝ)) ≤ pyInt ((10 : ℝ))) := by
    unfold pyInt
    rw [if_pos (by norm_num), if_pos (by norm_num)]
    norm_num
  have hm : ∀ mv : ℕ, (some 10 : Option ℕ) = some mv → 1 ≤ mv := by
    intro mv h
    cases h
    norm_num
  have hg : ∀ g : ℝ, (some (1 / 10 : ℝ) : Option ℝ) = some g → 0 < g ∧ g < 1 := by
    intro g h
    cases h
    norm_num
  exact ⟨hcfg, hout,
    out_of_range_k_fails lambertwZero 0 countOracle sumQueryN absNormN 2
      (some 10) (some (1 / 10)) 0 ⟨10, 1 / 10, 19, 1⟩ hm hg hcfg hout⟩

/-- The natural logarithm of 10 exceeds 2 (10 > e^2). -/
theorem log_ten_gt_two : (2 : ℝ) < Real.log 10 := by
  have he := Real.exp_one_lt_d9
  have hsq : Real.exp 2 < 10 := by
    have h2 : Real.exp 2 = Real.exp 1 ^ 2 := (Real.exp_one_pow 2).symm
    nlinarith [Real.exp_pos 1]
  have h10 : (0 : ℝ) < 10 := by norm_num
  exact (Real.lt_log_iff_exp_lt h10).mpr hsq

/-- Counterexample for C4: at the valid input m = 10, gamma = 1/10 (with the
zero Lambert stub; the amended theorem proves the same inequality for every
Lambertw value) the calibrator computes k = 19 > m = 10, so k is not within
[1, m]. -/
theorem calibrator_k_exceeds_m_cex :
    cfgM (sensitivity_sampler_config lambertwZero (some 10) (some (1 / 10))) = 10 ∧
      cfgK (sensitivity_sampler_config lambertwZero (some 10) (some (1 / 10))) = 19 ∧
      ¬ (cfgK (sensitivity_sampler_config lambertwZero (some 10) (some (1 / 10))) ≤
          cfgM (sensitivity_sampler_config lambertwZero (some 10) (some (1 / 10)))) := by
  rw [config_m_gamma, mRho_zero, mGammaLo_zero]
  unfold cfgM cfgK
  norm_num [npCeil]

/-- Claim C4 (amended): rho is positive always; in the gamma-only branch,
whenever the Lambert step yields rho < 1 and rho < gamma (what the intended
lower real branch guarantees), the calibrator returns 1 ≤ k ≤ m and rho in
(0,1); in the m-only branch k = m; but with both m and gamma supplied the
bound k ≤ m can fail: for every Lambertw value and every m ≥ 1, the valid
input gamma = 1/(10 m) makes the computed k exceed m. -/
theorem calibrator_k_rho_amended (lambertw : Lambertw) (g : ℝ) (mv : ℕ)
    (hg0 : 0 < g) (hg1 : g < 1) (hmv : 1 ≤ mv)
    (hrho1 : gRho lambertw g < 1) (hrhog : gRho lambertw g < g) :
    (0 < cfgRho (sensitivity_sampler_config lambertw none (some g)) ∧
      cfgRho (sensitivity_sampler_config lambertw none (some g)) < 1 ∧
      1 ≤ cfgK (sensitivity_sampler_config lambertw none (some g)) ∧
      cfgK (sensitivity_sampler_config lambertw none (some g)) ≤
        cfgM (sensitivity_sampler_config lambertw none (some g))) ∧
      cfgK (sensitivity_sampler_config lambertw (some mv) none) =
        cfgM (sensitivity_sampler_config lambertw (some mv) none) ∧
      cfgM (sensitivity_sampler_config lambertw (some mv)
          (some (1 / (10 * (mv : ℝ))))) <
        cfgK (sensitivity_sampler_config lambertw (some mv)
          (some (1 / (10 * (mv : ℝ))))) := by
  have hmvR : (1 : ℝ) ≤ (mv : ℝ) := by exact_mod_cast hmv
  have hmv0 : (0 : ℝ) < (mv : ℝ) := by linarith
  refine ⟨?_, ?_, ?_⟩
  · rw [config_gamma_only]
    unfold cfgRho cfgK cfgM
    simp only []
    have hρ0 := gRho_pos lambertw g
    have hL : 0 < Real.log (1 / gRho lambertw g) := by
      rw [one_div, Real.log_inv]
      have := Real.log_neg hρ0 hrho1
      linarith
    have hd : 0 < g - gRho lambertw g := sub_pos.mpr hrhog
    set L := Real.log (1 / gRho lambertw g) with hLdef
    set d := g - gRho lambertw g with hddef
    set X := L / (2 * d ^ 2) with hXdef
    have hX0 : 0 < X := div_pos hL (by positivity)
    have hgMX : gM lambertw g = npCeil X := rfl
    have hXceil : 1 ≤ ⌈X⌉ := Int.ceil_pos.mpr hX0
    have hgM1 : (1 : ℝ) ≤ gM lambertw g := by
      rw [hgMX]
      unfold npCeil
      exact_mod_cast hXceil
    have hXle : X ≤ gM lambertw g := by
      rw [hgMX]
      unfold npCeil
      exact Int.le_ceil X
    have harg : L / (2 * gM lambertw g) ≤ d ^ 2 := by
      have h1 : L / (2 * gM lambertw g) ≤ L / (2 * X) :=
        div_le_div_of_nonneg_left hL.le (by linarith) (by linarith)
      have h2 : L / (2 * X) = d ^ 2 := by
        rw [hXdef]
        field_simp
        ring
      linarith
    have hs : Real.sqrt (L / (2 * gM lambertw g)) ≤ d := by
      have h1 : Real.sqrt (L / (2 * gM lambertw g)) ≤ Real.sqrt (d ^ 2) :=
        Real.sqrt_le_sqrt harg
      rwa [Real.sqrt_sq hd.le] at h1
    have hγlo : gGammaLo lambertw g ≤ g := by
      unfold gGammaLo
      rw [← hLdef]
      have : gRho lambertw g + d = g := by rw [hddef]; ring
      linarith
    have hγlo0 := gGammaLo_pos lambertw g
    refine ⟨hρ0, hrho1, ?_, ?_⟩
    · unfold gK
      unfold npCeil
      have hpos : 0 < gM lambertw g * (1 - g + gGammaLo lambertw g) := by
        apply mul_pos (by linarith)
        linarith
      exact_mod_cast Int.ceil_pos.mpr hpos
    · unfold gK
      have hfac : gM lambertw g * (1 - g + gGammaLo lambertw g) ≤
          gM lambertw g := by
        apply mul_le_of_le_one_right (by linarith)
        linarith
      have hceil : ⌈gM lambertw g * (1 - g + gGammaLo lambertw g)⌉ ≤ ⌈X⌉ := by
        have h1 : ⌈gM lambertw g * (1 - g + gGammaLo lambertw g)⌉ ≤
            ⌈gM lambertw g⌉ := Int.ceil_le_ceil hfac
        have h2 : ⌈gM lambertw g⌉ = ⌈X⌉ := by
          rw [hgMX]
          unfold npCeil
          exact Int.ceil_intCast ⌈X⌉
        omega
      rw [hgMX]
      unfold npCeil
      exact_mod_cast hceil
  · rw [config_m_only]
    unfold cfgK cfgM
    simp only []
  · rw [config_m_gamma]
    unfold cfgK cfgM
    simp only []
    set γ := 1 / (10 * (mv : ℝ)) with hγdef
    have hγ0 : 0 < γ := by rw [hγdef]; positivity
    have hρ'0 := mRho_pos lambertw mv
    have key : γ < mGammaLo lambertw mv := by
      by_cases hcase : γ < mRho lambertw mv
      · have := Real.sqrt_nonneg
          (Real.log (1 / mRho lambertw mv) / (2 * (mv : ℝ)))
        unfold mGammaLo
        linarith
      · push_neg at hcase
        have hγ1 : γ ≤ 1 / 10 := by
          rw [hγdef]
          rw [div_le_div_iff (by positivity) (by norm_num)]
          linarith
        have hlog : 2 < Real.log (1 / mRho lambertw mv) := by
          have hinv : (10 : ℝ) ≤ 1 / γ := by
            have h := one_div_le_one_div_of_le hγ0 hγ1
            norm_num at h
            rw [one_div]
            exact h
          have hmono : Real.log (1 / γ) ≤ Real.log (1 / mRho lambertw mv) := by
            apply Real.log_le_log (by positivity)
            apply one_div_le_one_div_of_le hρ'0 hcase
          have h10 : Real.log 10 ≤ Real.log (1 / γ) :=
            Real.log_le_log (by norm_num) hinv
          have := log_ten_gt_two
          linarith
        have harg' : 1 / (mv : ℝ) < Real.log (1 / mRho lambertw mv) /
            (2 * (mv : ℝ)) := by
          rw [div_lt_div_iff (by positivity) (by positivity)]
          have hprod : 0 < (mv : ℝ) *
              (Real.log (1 / mRho lambertw mv) - 2) :=
            mul_pos hmv0 (by linarith)
          nlinarith [hprod]
        have hsq : γ < Real.sqrt (1 / (mv : ℝ)) := by
          rw [show γ = 1 / (10 * (mv : ℝ)) from hγdef]
          rw [show (1 : ℝ) / (mv : ℝ) = ((mv : ℝ))⁻¹ from one_div _]
          apply lt_of_pow_lt_pow_left 2 (Real.sqrt_nonneg _)
          rw [Real.sq_sqrt (by positivity)]
          rw [div_pow]
          rw [div_lt_iff (by positivity)]
          have : ((mv : ℝ))⁻¹ * (10 * (mv : ℝ)) ^ 2 = 100 * (mv : ℝ) := by
            field_simp
            ring
          rw [this]
          nlinarith
        have hmono2 : Real.sqrt (1 / (mv : ℝ)) ≤ Real.sqrt
            (Real.log (1 / mRho lambertw mv) / (2 * (mv : ℝ))) :=
          Real.sqrt_le_sqrt harg'.le
        unfold mGammaLo
        linarith
    have hval : (mv : ℝ) < (mv : ℝ) * (1 - γ + mGammaLo lambertw mv) := by
      nlinarith
    unfold npCeil
    have := Int.le_ceil ((mv : ℝ) * (1 - γ + mGammaLo lambertw mv))
    linarith

/-- Claim C7 (amended): sample_sensitivity performs no validation of n: with
n = 1, below the spec's required minimum of 2, and collaborators that
succeed, the call completes normally and returns an estimate: no failure
occurs before or during sampling.  (For n ≤ 0 the behaviour is whatever the
oracle does on a negative draw count.)  Shown for every Lambert value, every
array placeholder and every oracle start state, with the counting oracle,
the summing query and the absolute-difference norm. -/
theorem n_one_runs (lambertw : Lambertw) (inf : ℝ) (s : ℕ) :
    sample_sensitivity lambertw inf countOracle sumQueryN absNormN 1
      (some 1) none s = .ok (1, 1) := by
  have htrial : sampleTrial countOracle sumQueryN absNormN 1 s =
      .ok (1, s + 3) := by
    simp [sampleTrial, sensitivity_norm_of, countOracle, sumQueryN, absNormN,
      Bind.bind, Except.bind, Pure.pure, Except.pure]
  unfold sample_sensitivity
  rw [config_m_only]
  simp only []
  have hp : pyInt (((1 : ℕ) : ℝ)) = 1 := by
    unfold pyInt
    rw [if_pos (by norm_num)]
    norm_num
  rw [hp]
  unfold sensitivity_sampler
  rw [if_neg (by norm_num)]
  rw [show (1 : ℤ).toNat = 1 from rfl, show List.range 1 = [0] from rfl]
  simp only [samplerLoop, htrial]
  rw [show (List.replicate 1 inf).set 0 1 = [1] from rfl]
  rw [show npSort [1] = [1] by simp [npSort]]
  rw [show (npIndex [1] (1 - 1) : Except (PyErr ℕ) ℝ) = .ok 1 by
    unfold npIndex; norm_num]
  rw [show npMean [1] = 1 by unfold npMean; simp]

/-- Counterexample for C7: at n = 1 < 2 the call does not fail: it runs the
sampling loop (with zero shared records per trial) and returns an estimate,
performing no validation of n. -/
theorem n_below_two_no_failure_cex :
    (1 : ℤ) < 2 ∧
      sample_sensitivity lambertwZero 0 countOracle sumQueryN absNormN 1
        (some 1) none 0 = .ok (1, 1) := by
  constructor
  · norm_num
  · have htrial : sampleTrial countOracle sumQueryN absNormN 1 0 =
        .ok (1, 3) := by
      simp [sampleTrial, sensitivity_norm_of, countOracle, sumQueryN, absNormN,
        Bind.bind, Except.bind, Pure.pure, Except.pure]
      norm_num
    unfold sample_sensitivity
    rw [config_m_only]
    simp only []
    have hp : pyInt (((1 : ℕ) : ℝ)) = 1 := by
      unfold pyInt
      rw [if_pos (by norm_num)]
      norm_num
    rw [hp]
    unfold sensitivity_sampler
    rw [if_neg (by norm_num)]
    rw [show (1 : ℤ).toNat = 1 from rfl, show List.range 1 = [0] from rfl]
    simp only [samplerLoop, htrial]
    rw [show (List.replicate 1 (0 : ℝ)).set 0 1 = [1] from rfl]
    rw [show npSort [1] = [1] by simp [npSort]]
    rw [show (npIndex [1] (1 - 1) : Except (PyErr ℕ) ℝ) = .ok 1 by
      unfold npIndex; norm_num]
    rw [show npMean [1] = 1 by unfold npMean; simp]

/-- Witness for C4's amended theorem at a concrete input: the Lambert
stand-in with constant value -2, gamma = 1/2 and m = 5; its rho is
exp(-3/2), which lies in (0,1) and below gamma. -/
theorem calibrator_k_rho_amended_witness :
    ((0 : ℝ) < 1 / 2) ∧ ((1 / 2 : ℝ) < 1) ∧ (1 ≤ 5) ∧
      gRho lambertwNeg2 (1 / 2) < 1 ∧ gRho lambertwNeg2 (1 / 2) < 1 / 2 ∧
      ((0 < cfgRho (sensitivity_sampler_config lambertwNeg2 none (some (1 / 2))) ∧
        cfgRho (sensitivity_sampler_config lambertwNeg2 none (some (1 / 2))) < 1 ∧
        1 ≤ cfgK (sensitivity_sampler_config lambertwNeg2 none (some (1 / 2))) ∧
        cfgK (sensitivity_sampler_config lambertwNeg2 none (some (1 / 2))) ≤
          cfgM (sensitivity_sampler_config lambertwNeg2 none (some (1 / 2)))) ∧
        cfgK (sensitivity_sampler_config lambertwNeg2 (some 5) none) =
          cfgM (sensitivity_sampler_config lambertwNeg2 (some 5) none) ∧
        cfgM (sensitivity_sampler_config lambertwNeg2 (some 5)
            (some (1 / (10 * ((5 : ℕ) : ℝ))))) <
          cfgK (sensitivity_sampler_config lambertwNeg2 (some 5)
            (some (1 / (10 * ((5 : ℕ) : ℝ)))))) := by
  have hre : gRho lambertwNeg2 (1 / 2) = Real.exp (-2 + 0.5) := by
    unfold gRho lambertwNeg2
    norm_num
  have h1 : gRho lambertwNeg2 (1 / 2) < 1 := by
    rw [hre, Real.exp_lt_one_iff]
    norm_num
  have h2 : gRho lambertwNeg2 (1 / 2) < 1 / 2 := by
    rw [hre]
    have ha : Real.exp (-2 + 0.5) < Real.exp (-1) := by
      rw [Real.exp_lt_exp]
      norm_num
    have he : (2 : ℝ) < Real.exp 1 := by
      have := Real.exp_one_gt_d9
      linarith
    have hb : Real.exp (-1) < 1 / 2 := by
      rw [Real.exp_neg]
      rw [show (1 : ℝ) / 2 = (2 : ℝ)⁻¹ by norm_num]
      exact inv_lt_inv_of_lt (by norm_num) he
    linarith
  exact ⟨by norm_num, by norm_num, by norm_num, h1, h2,
    calibrator_k_rho_amended lambertwNeg2 (1 / 2) 5 (by norm_num) (by norm_num)
      (by norm_num) h1 h2⟩

/-- Claim C10: for every non-empty rectangular list of clients' parameter
lists (each client has L layers, layer j has width dims j),
aggregate_weights returns one entry per layer, and the entry of layer j at
position p is the arithmetic mean over the clients of their layer-j value at
position p.  The embedding is a pure function of its argument, so the input
list is not modified. -/
theorem fedavg_elementwise_mean (clients_params : List (List (List ℝ)))
    (L : ℕ) (dims : ℕ → ℕ)
    (hne : clients_params ≠ [])
    (hlayers : ∀ cp ∈ clients_params, cp.length = L)
    (hdims : ∀ cp ∈ clients_params, ∀ j < L, (cp.getD j []).length = dims j) :
    (aggregate_weights clients_params).length = L ∧
      ∀ j < L, ((aggregate_weights clients_params).getD j []).length = dims j ∧
        ∀ p < dims j, ((aggregate_weights clients_params).getD j []).getD p 0 =
          (clients_params.map (fun cp => (cp.getD j []).getD p 0)).sum /
            clients_params.length := by
  obtain ⟨c0, rest, rfl⟩ : ∃ c0 rest, clients_params = c0 :: rest := by
    cases clients_params with
    | nil => exact absurd rfl hne
    | cons a t => exact ⟨a, t, rfl⟩
  have hhead : ((c0 :: rest).headD []).length = L := by
    simp only [List.headD_cons]
    exact hlayers c0 (by simp)
  have hlen : (aggregate_weights (c0 :: rest)).length = L := by
    unfold aggregate_weights
    simp only [List.length_map, List.length_range, List.headD_cons]
    exact hlayers c0 (by simp)
  refine ⟨hlen, ?_⟩
  intro j hj
  have hget : (aggregate_weights (c0 :: rest)).getD j [] =
      npMeanAxis0 ((c0 :: rest).map (fun cp => cp.getD j [])) := by
    unfold aggregate_weights
    simp only [List.headD_cons] at hhead ⊢
    rw [hhead]
    rw [List.getD_eq_getElem _ _ (by simpa using hj)]
    simp
  have hrowhead : (((c0 :: rest).map (fun cp => cp.getD j [])).headD []).length =
      dims j := by
    simp only [List.map_cons, List.headD_cons]
    exact hdims c0 (by simp) j hj
  rw [hget]
  constructor
  · unfold npMeanAxis0
    simp only [List.length_map, List.length_range]
    exact hrowhead
  · intro p hp
    unfold npMeanAxis0
    rw [hrowhead]
    rw [List.getD_eq_getElem _ _ (by simpa using hp)]
    simp only [List.getElem_map, List.getElem_range]
    rw [List.map_map]
    have hfun : ((fun r : List ℝ => r.getD p 0) ∘
        fun cp : List (List ℝ) => cp.getD j []) =
        fun cp : List (List ℝ) => (cp.getD j []).getD p 0 := rfl
    rw [hfun]
    simp [List.length_map]

/-- Witness for C10 at a concrete input: two clients, one layer of width
two; the aggregate is the elementwise mean [[3, 5]]. -/
theorem fedavg_elementwise_mean_witness :
    (([[[1, 3]], [[5, 7]]] : List (List (List ℝ))) ≠ []) ∧
      ((aggregate_weights [[[1, 3]], [[5, 7]]]).length = 1 ∧
        ∀ j < 1, ((aggregate_weights [[[1, 3]], [[5, 7]]]).getD j []).length = 2 ∧
          ∀ p < 2, ((aggregate_weights [[[1, 3]], [[5, 7]]]).getD j []).getD p 0 =
            (([[[1, 3]], [[5, 7]]] : List (List (List ℝ))).map
              (fun cp => (cp.getD j []).getD p 0)).sum /
              ([[[1, 3]], [[5, 7]]] : List (List (List ℝ))).length) := by
  have hne : (([[[1, 3]], [[5, 7]]] : List (List (List ℝ))) ≠ []) := by
    simp
  have hlayers : ∀ cp ∈ ([[[1, 3]], [[5, 7]]] : List (List (List ℝ))),
      cp.length = 1 := by
    intro cp h
    simp at h
    rcases h with h | h <;> rw [h] <;> rfl
  have hdims : ∀ cp ∈ ([[[1, 3]], [[5, 7]]] : List (List (List ℝ))),
      ∀ j < 1, (cp.getD j []).length = 2 := by
    intro cp h j hj
    interval_cases j
    simp at h
    rcases h with h | h <;> rw [h] <;> rfl
  exact ⟨hne, fedavg_elementwise_mean [[[1, 3]], [[5, 7]]] 1 (fun _ => 2)
    hne hlayers hdims⟩

/-- The real part of a non-real solution of w * exp w = z is never itself a
real solution of u * exp u = z: rotating (x, y) by the angle y preserves the
euclidean norm, so an equal real part would force the imaginary part to
vanish.  In particular np.real applied to a non-real Lambert W branch value
is not a value of any real branch. -/
theorem re_of_nonreal_solution_ne (w : ℂ) (hw : w.im ≠ 0)
    (hreal : (w * Complex.exp w).im = 0) :
    w.re * Real.exp w.re ≠ (w * Complex.exp w).re := by
  intro hEq
  have hexre : (Complex.exp w).re = Real.exp w.re * Real.cos w.im :=
    Complex.exp_re w
  have hexim : (Complex.exp w).im = Real.exp w.re * Real.sin w.im :=
    Complex.exp_im w
  have him : w.re * (Real.exp w.re * Real.sin w.im) +
      w.im * (Real.exp w.re * Real.cos w.im) = 0 := by
    rw [Complex.mul_im, hexre, hexim] at hreal
    linarith
  have hre : w.re * Real.exp w.re =
      w.re * (Real.exp w.re * Real.cos w.im) -
        w.im * (Real.exp w.re * Real.sin w.im) := by
    rw [Complex.mul_re, hexre, hexim] at hEq
    linarith
  have hexp := Real.exp_pos w.re
  have hA : w.re * Real.sin w.im + w.im * Real.cos w.im = 0 := by
    have h1 : Real.exp w.re *
        (w.re * Real.sin w.im + w.im * Real.cos w.im) = 0 := by
      rw [← him]
      ring
    rcases mul_eq_zero.mp h1 with h | h
    · exact absurd h (ne_of_gt hexp)
    · exact h
  have hB : w.re * Real.cos w.im - w.im * Real.sin w.im = w.re := by
    have h1 : Real.exp w.re *
        (w.re * Real.cos w.im - w.im * Real.sin w.im) =
        Real.exp w.re * w.re := by
      have h2 : w.re * (Real.exp w.re * Real.cos w.im) -
          w.im * (Real.exp w.re * Real.sin w.im) =
          Real.exp w.re * (w.re * Real.cos w.im - w.im * Real.sin w.im) := by
        ring
      rw [← h2, ← hre]
      ring
    exact mul_left_cancel₀ (ne_of_gt hexp) h1
  have hsc := Real.sin_sq_add_cos_sq w.im
  have hcalc : (w.re * Real.cos w.im - w.im * Real.sin w.im) ^ 2 +
      (w.re * Real.sin w.im + w.im * Real.cos w.im) ^ 2 =
      (w.re ^ 2 + w.im ^ 2) * (Real.sin w.im ^ 2 + Real.cos w.im ^ 2) := by
    ring
  rw [hsc, hA, hB] at hcalc
  have hy2 : w.im ^ 2 = 0 := by nlinarith [hcalc]
  exact hw (sq_eq_zero_iff.mp hy2)

/-- The calibration argument of gamma0 is exactly z0. -/
theorem gamma0_arg : -gamma0 / (2 * Real.exp 0.5) = z0 := by
  unfold gamma0 z0
  rw [show (1 / 2 - 9 * Real.pi / 4 : ℝ) = 1 / 2 + -(9 * Real.pi / 4) by ring,
    Real.exp_add]
  rw [show (0.5 : ℝ) = 1 / 2 by norm_num]
  field_simp [Real.exp_ne_zero]
  ring

/-- The confidence level gamma0 is positive. -/
theorem gamma0_pos : 0 < gamma0 := by
  unfold gamma0
  positivity

/-- The confidence level gamma0 is below 1 (it is about 0.028). -/
theorem gamma0_lt_one : gamma0 < 1 := by
  unfold gamma0
  have hπ1 : Real.pi < 3.15 := Real.pi_lt_315
  have hπ2 : 3 < Real.pi := Real.pi_gt_three
  have hs2 : Real.sqrt 2 < 1.5 := by
    have h2 : (2 : ℝ) < 1.5 ^ 2 := by norm_num
    exact (Real.sqrt_lt' (by norm_num)).mpr h2
  have hA : 9 * Real.pi * Real.sqrt 2 / 2 < 22 := by
    nlinarith [Real.sqrt_nonneg 2]
  have h2e : (2 : ℝ) < Real.exp 1 := by
    have := Real.exp_one_gt_d9
    linarith
  have he6 : (22 : ℝ) < Real.exp 6 := by
    have hp : (2 : ℝ) ^ 6 < Real.exp 1 ^ 6 :=
      pow_lt_pow_left h2e (by norm_num) (by norm_num)
    have h64 : ((2 : ℝ)) ^ 6 = 64 := by norm_num
    have hx : Real.exp 1 ^ 6 = Real.exp 6 := by
      rw [Real.exp_one_pow]
      norm_num
    nlinarith
  have hE : (22 : ℝ) < Real.exp (9 * Real.pi / 4 - 1 / 2) := by
    have h6 : (6 : ℝ) < 9 * Real.pi / 4 - 1 / 2 := by nlinarith
    have hmono : Real.exp 6 ≤ Real.exp (9 * Real.pi / 4 - 1 / 2) :=
      Real.exp_le_exp.mpr h6.le
    linarith
  have hinv : Real.exp (1 / 2 - 9 * Real.pi / 4) =
      (Real.exp (9 * Real.pi / 4 - 1 / 2))⁻¹ := by
    rw [← Real.exp_neg]
    ring_nf
  have hposB : 0 < Real.exp (9 * Real.pi / 4 - 1 / 2) := Real.exp_pos _
  calc 9 * Real.pi * Real.sqrt 2 / 2 * Real.exp (1 / 2 - 9 * Real.pi / 4)
      < 22 * Real.exp (1 / 2 - 9 * Real.pi / 4) :=
        mul_lt_mul_of_pos_right hA (Real.exp_pos _)
    _ < Real.exp (9 * Real.pi / 4 - 1 / 2) *
          Real.exp (1 / 2 - 9 * Real.pi / 4) :=
        mul_lt_mul_of_pos_right hE (Real.exp_pos _)
    _ = 1 := by
        rw [← Real.exp_add]
        norm_num

/-- The imaginary part of w0 is nonzero. -/
theorem w0_im_ne : w0.im ≠ 0 := by
  have h : w0.im = 9 * Real.pi / 4 := rfl
  rw [h]
  positivity

/-- The point w0 solves the Lambert defining equation at z0:
w0 * exp w0 = z0. -/
theorem w0_solves : w0 * Complex.exp w0 = ((z0 : ℝ) : ℂ) := by
  have hre : w0.re = -(9 * Real.pi / 4) := rfl
  have him : w0.im = 9 * Real.pi / 4 := rfl
  have hcos : Real.cos (9 * Real.pi / 4) = Real.sqrt 2 / 2 := by
    rw [show (9 * Real.pi / 4 : ℝ) = Real.pi / 4 + 2 * Real.pi by ring]
    rw [Real.cos_add_two_pi, Real.cos_pi_div_four]
  have hsin : Real.sin (9 * Real.pi / 4) = Real.sqrt 2 / 2 := by
    rw [show (9 * Real.pi / 4 : ℝ) = Real.pi / 4 + 2 * Real.pi by ring]
    rw [Real.sin_add_two_pi, Real.sin_pi_div_four]
  apply Complex.ext
  · rw [Complex.mul_re, Complex.exp_re, Complex.exp_im, hre, him, hcos, hsin,
      Complex.ofReal_re]
    unfold z0
    ring
  · rw [Complex.mul_im, Complex.exp_re, Complex.exp_im, hre, him, hcos, hsin,
      Complex.ofReal_im]
    ring

/-- Claim C1 (code divergence): the source computes rho from branch index 1
of scipy's lambertw, discarding the imaginary part, while the claim requires
rho = exp(W + 0.5) for W the real lower-branch value W_{-1}.  At the valid
confidence level gamma0 (about 0.028), given only that scipy's branch-1
value at the calibration argument z0 satisfies the Lambert defining equation
and is non-real (it is: only branches 0 and -1 are real on (-1/e, 0)), the
rho computed by the code is not exp(W + 0.5) for any real Lambert value W at
z0, hence not the claimed exp(W_minus1(z0) + 0.5). -/
theorem lambertw_branch_bug (lambertw : Lambertw)
    (hsolve : lambertw ((z0 : ℝ) : ℂ) 1 * Complex.exp (lambertw ((z0 : ℝ) : ℂ) 1) =
      ((z0 : ℝ) : ℂ))
    (hnonreal : (lambertw ((z0 : ℝ) : ℂ) 1).im ≠ 0) :
    0 < gamma0 ∧ gamma0 < 1 ∧
      ¬ isLowerBranchRho
        (cfgRho (sensitivity_sampler_config lambertw none (some gamma0))) z0 := by
  refine ⟨gamma0_pos, gamma0_lt_one, ?_⟩
  rw [config_gamma_only]
  unfold cfgRho
  simp only []
  intro hlb
  obtain ⟨hpos, hle, hsol⟩ := hlb
  have hargC : ((-gamma0 / (2 * Real.exp 0.5) : ℝ) : ℂ) = ((z0 : ℝ) : ℂ) := by
    rw [gamma0_arg]
  have hρ : gRho lambertw gamma0 =
      Real.exp ((lambertw ((z0 : ℝ) : ℂ) 1).re + 0.5) := by
    unfold gRho
    rw [hargC]
  rw [hρ] at hsol
  rw [Real.log_exp] at hsol
  have hred : (lambertw ((z0 : ℝ) : ℂ) 1).re + 0.5 - 1 / 2 =
      (lambertw ((z0 : ℝ) : ℂ) 1).re := by
    norm_num
  rw [hred] at hsol
  have himz : (lambertw ((z0 : ℝ) : ℂ) 1 *
      Complex.exp (lambertw ((z0 : ℝ) : ℂ) 1)).im = 0 := by
    rw [hsolve]
    exact Complex.ofReal_im z0
  have hrez : (lambertw ((z0 : ℝ) : ℂ) 1 *
      Complex.exp (lambertw ((z0 : ℝ) : ℂ) 1)).re = z0 := by
    rw [hsolve]
    exact Complex.ofReal_re z0
  have hne := re_of_nonreal_solution_ne (lambertw ((z0 : ℝ) : ℂ) 1)
    hnonreal himz
  rw [hrez] at hne
  exact hne hsol

/-- Witness for C1 at a concrete Lambert stand-in: the constant function
returning w0 = (9 pi / 4)(-1 + i), a genuinely non-real solution of the
defining equation at z0, with both hypotheses discharged in closed form. -/
theorem lambertw_branch_bug_witness :
    (lambertwW0 ((z0 : ℝ) : ℂ) 1 * Complex.exp (lambertwW0 ((z0 : ℝ) : ℂ) 1) =
      ((z0 : ℝ) : ℂ)) ∧
      ((lambertwW0 ((z0 : ℝ) : ℂ) 1).im ≠ 0) ∧
      (0 < gamma0 ∧ gamma0 < 1 ∧
        ¬ isLowerBranchRho
          (cfgRho (sensitivity_sampler_config lambertwW0 none (some gamma0)))
          z0) := by
  have hsolve : lambertwW0 ((z0 : ℝ) : ℂ) 1 *
      Complex.exp (lambertwW0 ((z0 : ℝ) : ℂ) 1) = ((z0 : ℝ) : ℂ) := w0_solves
  have hnon : (lambertwW0 ((z0 : ℝ) : ℂ) 1).im ≠ 0 := w0_im_ne
  exact ⟨hsolve, hnon, lambertw_branch_bug lambertwW0 hsolve hnon⟩

end Shfl
